import Mathlib

/-!
Verification of the page / mmap / flock core of the bolt_read repository.

The Go sources `page.go` and `bolt_unix.go` are embedded shallowly:
machine integers (`uint16`, `uint32`, `uint64`, Go `int`) become `Nat`
(the embedded operations only compare, copy and add small quantities, so
no overflow is reachable at the widths involved); byte buffers become
`List Nat` or address-indexed functions `Nat → Nat`; fallible calls
return `Option`/`Except`; the OS (syscall results, the wall clock) is
passed in as explicit parameters.
-/

namespace BoltRead

/-! ### Page header and flags (`page.go`) -/

def branchPageFlag : Nat := 0x01

def leafPageFlag : Nat := 0x02

def metaPageFlag : Nat := 0x04

def freelistPageFlag : Nat := 0x10

/-- The fixed page header: `id`, `flags`, `count`, `overflow`. -/
structure page where
  id : Nat
  flags : Nat
  count : Nat
  overflow : Nat
deriving DecidableEq

/-- Lowercase hexadecimal digits of `n`, as produced by Go's `%x` verb. -/
def hexDigits (n : Nat) : String :=
  String.mk (Nat.toDigits 16 n)

/-- Go's `fmt.Sprintf` with verb `%02x`: lowercase hex, zero-padded to
width at least two. -/
def sprintf02x (n : Nat) : String :=
  if (Nat.toDigits 16 n).length < 2 then "0" ++ hexDigits n else hexDigits n

/-- `page.typ` from `page.go`: a human readable page type string used for
debugging, testing the four flag bits in order. -/
def page.typ (p : page) : String :=
  if p.flags &&& branchPageFlag ≠ 0 then "branch"
  else if p.flags &&& leafPageFlag ≠ 0 then "leaf"
  else if p.flags &&& metaPageFlag ≠ 0 then "meta"
  else if p.flags &&& freelistPageFlag ≠ 0 then "freelist"
  else "unknown<" ++ sprintf02x p.flags ++ ">"

/-! ### Page elements and their byte accessors (`page.go`) -/

/-- A node on a branch page. -/
structure branchPageElement where
  pos : Nat
  ksize : Nat
  pgid : Nat
deriving DecidableEq

/-- A node on a leaf page. -/
structure leafPageElement where
  flags : Nat
  pos : Nat
  ksize : Nat
  vsize : Nat
deriving DecidableEq

/-- Modelled from the spec: the repository's `unsafeByteSlice(ptr, base, i, j)`
helper (defined in its unsafe-pointer utilities, which are not among the
shown sources) returns the bytes of the mapped region at addresses
`[ptr+base+i, ptr+base+j)`.  `mem` is the byte content of the mapped
region, indexed by address. -/
def unsafeByteSlice (mem : Nat → Nat) (ptr base i j : Nat) : List Nat :=
  (List.range (j - i)).map (fun k => mem (ptr + base + i + k))

/-- `leafPageElement.key` from `page.go`: the `ksize` bytes at offset
`pos` from the element's own address `addr`. -/
def leafPageElement.key (n : leafPageElement) (mem : Nat → Nat) (addr : Nat) : List Nat :=
  unsafeByteSlice mem addr 0 n.pos (n.pos + n.ksize)

/-- `leafPageElement.value` from `page.go`: the `vsize` bytes immediately
after the key. -/
def leafPageElement.value (n : leafPageElement) (mem : Nat → Nat) (addr : Nat) : List Nat :=
  unsafeByteSlice mem addr 0 (n.pos + n.ksize) (n.pos + n.ksize + n.vsize)

/-- `branchPageElement.key` from `page.go`. -/
def branchPageElement.key (n : branchPageElement) (mem : Nat → Nat) (addr : Nat) : List Nat :=
  unsafeByteSlice mem addr 0 n.pos (n.pos + n.ksize)

/-- Modelled from the spec: the repository's `unsafeSlice` helper converts
the `count` contiguous fixed-size records following the page header into a
typed slice in one call; `elemAt i` denotes the `i`-th such record as
decoded from the mapped memory. -/
def unsafeSlice (count : Nat) (elemAt : Nat → α) : List α :=
  (List.range count).map elemAt

/-- `page.leafPageElements` from `page.go`: `nil` when `count` is zero,
otherwise the typed slice of all `count` leaf elements. -/
def page.leafPageElements (p : page) (elemAt : Nat → leafPageElement) : List leafPageElement :=
  if p.count = 0 then []
  else unsafeSlice p.count elemAt

/-- `page.branchPageElements` from `page.go`: `nil` when `count` is zero,
otherwise the typed slice of all `count` branch elements. -/
def page.branchPageElements (p : page) (elemAt : Nat → branchPageElement) : List branchPageElement :=
  if p.count = 0 then []
  else unsafeSlice p.count elemAt

/-! ### The database handle's mapping state and `mmap`/`munmap`
(`bolt_unix.go`)

The OS is a parameter: `osMmap` is the result of `syscall.Mmap`
(`.ok b` returns the mapped byte slice), `osMadvise` and `osMunmap` are
the error results of `syscall.Madvise` / `syscall.Munmap`
(`none` = success, `some e` = errno `e`). -/

/-- The mapping-related fields of the `DB` handle: `dataref` is the byte
slice returned by `syscall.Mmap` (`none` = `nil`), `data` the derived
array pointer (`none` = `nil`), `datasz` the mapped size. -/
structure DB where
  dataref : Option (List Nat)
  data : Option Unit
  datasz : Nat
deriving DecidableEq

/-- Linux `syscall.ENOSYS`. -/
def ENOSYS : Int := 38

/-- Linux `syscall.EWOULDBLOCK` (= `EAGAIN`). -/
def EWOULDBLOCK : Int := 11

/-- Errors of the `mmap` wrapper: either the `syscall.Mmap` error returned
unchanged, or the wrapped `fmt.Errorf("madvise: %s", err)`. -/
inductive mmapError where
  | os : Int → mmapError
  | madviseFailed : Int → mmapError
deriving DecidableEq

/-- `mmap` from `bolt_unix.go`: maps the data file, advises
`MADV_RANDOM` tolerating only `ENOSYS`, then stores the buffer, array
pointer and size on the handle. -/
def mmap (db : DB) (sz : Nat) (osMmap : Except Int (List Nat)) (osMadvise : Option Int) :
    Except mmapError DB :=
  match osMmap with
  | .error e => .error (.os e)
  | .ok b =>
    match osMadvise with
    | some e =>
      if e ≠ ENOSYS then .error (.madviseFailed e)
      else .ok { db with dataref := some b, data := some (), datasz := sz }
    | none => .ok { db with dataref := some b, data := some (), datasz := sz }

/-- `munmap` from `bolt_unix.go`: a no-op when nothing is mapped,
otherwise unmaps via the OS, clears `dataref`/`data`/`datasz`, and
returns the OS error. -/
def munmap (db : DB) (osMunmap : Option Int) : DB × Option Int :=
  if db.dataref = none then (db, none)
  else ({ db with dataref := none, data := none, datasz := 0 }, osMunmap)

/-! ### `flock` (`bolt_unix.go`)

The retry loop is embedded with an explicit iteration index `k` and fuel.
`attempt k` is the result of the `k`-th non-blocking `syscall.Flock`
(`none` = acquired, `some e` = errno `e`); `elapsed k` is the
`time.Since(t)` observed at the `k`-th deadline check; `retry` is
`flockRetryTimeout`.  Each recursive step corresponds to one
`time.Sleep(flockRetryTimeout)`.  `none` as overall result means the
fuel ran out while the Go loop would still be retrying. -/

inductive flockResult where
  | ok : flockResult
  | err : Int → flockResult
  | timedOut : flockResult
deriving DecidableEq

/-- The retry loop of `flock` from `bolt_unix.go`. -/
def flock (attempt : Nat → Option Int) (elapsed : Nat → Int) (timeout retry : Int) :
    Nat → Nat → Option flockResult
  | _, 0 => none
  | k, fuel + 1 =>
    match attempt k with
    | none => some .ok
    | some e =>
      if e ≠ EWOULDBLOCK then some (.err e)
      else if timeout ≠ 0 ∧ timeout - retry < elapsed k then some .timedOut
      else flock attempt elapsed timeout retry (k + 1) fuel

/-! ### `pgids.merge` / `mergepgids` (`page.go`)

`sort.Search(n, f)` is Go's standard-library binary search over `[0, n)`;
`mergepgids` drives it in a run-skipping loop.  The destination slice is
modelled by its contents; appending through the `dst[:0]` re-slice
overwrites a prefix of `dst` in place. -/

/-- The loop of Go's `sort.Search`, narrowing the interval `[i, j)`. -/
def sortSearchAux (f : Nat → Bool) (i j : Nat) : Nat :=
  if h : i < j then
    if f ((i + j) / 2) then sortSearchAux f i ((i + j) / 2)
    else sortSearchAux f ((i + j) / 2 + 1) j
  else i
termination_by j - i
decreasing_by
  · omega
  · omega

/-- Go's `sort.Search n f`: binary search for the frontier of `f` on `[0, n)`. -/
def sortSearch (n : Nat) (f : Nat → Bool) : Nat :=
  sortSearchAux f 0 n

theorem sortSearchAux_bounds (f : Nat → Bool) :
    ∀ d i j, j - i ≤ d → i ≤ j →
      i ≤ sortSearchAux f i j ∧ sortSearchAux f i j ≤ j := by
  intro d
  induction d with
  | zero =>
    intro i j hd hij
    rw [sortSearchAux]
    have h : ¬ i < j := by omega
    simp only [h, dite_false]
    exact ⟨Nat.le_refl i, hij⟩
  | succ d ih =>
    intro i j hd hij
    rw [sortSearchAux]
    split
    · rename_i h
      split
      · have hb := ih i ((i + j) / 2) (by omega) (by omega)
        omega
      · have hb := ih ((i + j) / 2 + 1) j (by omega) (by omega)
        omega
    · omega

theorem sortSearchAux_frontier (f : Nat → Bool) :
    ∀ d i j, j - i ≤ d → sortSearchAux f i j < j →
      f (sortSearchAux f i j) = true := by
  intro d
  induction d with
  | zero =>
    intro i j hd hlt
    rw [sortSearchAux] at hlt ⊢
    have h : ¬ i < j := by omega
    simp [h] at hlt
  | succ d ih =>
    intro i j hd hlt
    rw [sortSearchAux] at hlt ⊢
    split at hlt
    · rename_i h
      split at hlt
      · rename_i hf
        simp only [h, dite_true]
        rw [if_pos hf]
        have hb := sortSearchAux_bounds f d i ((i + j) / 2) (by omega) (by omega)
        by_cases hr : sortSearchAux f i ((i + j) / 2) < (i + j) / 2
        · exact ih i ((i + j) / 2) (by omega) hr
        · have he : sortSearchAux f i ((i + j) / 2) = (i + j) / 2 := by omega
          rw [he]
          exact hf
      · rename_i hf
        simp only [h, dite_true]
        rw [if_neg hf]
        exact ih ((i + j) / 2 + 1) j (by omega) hlt
    · rename_i h
      exact absurd hlt h

/-- For a predicate monotone on `[0, n)`, Go's `sort.Search` splits
`[0, n)` into a false part below the result and a true part from the
result on. -/
theorem sortSearchAux_spec (f : Nat → Bool) (n : Nat)
    (hmono : ∀ p q, p ≤ q → q < n → f p = true → f q = true) :
    ∀ d i j, j - i ≤ d → i ≤ j → j ≤ n →
      (∀ k, k < i → f k = false) → (∀ k, j ≤ k → k < n → f k = true) →
      (∀ k, k < sortSearchAux f i j → f k = false) ∧
      (∀ k, sortSearchAux f i j ≤ k → k < n → f k = true) := by
  intro d
  induction d with
  | zero =>
    intro i j hd hij hjn hlow hhigh
    rw [sortSearchAux]
    have h : ¬ i < j := by omega
    simp only [h, dite_false]
    exact ⟨hlow, fun k hk hkn => hhigh k (by omega) hkn⟩
  | succ d ih =>
    intro i j hd hij hjn hlow hhigh
    rw [sortSearchAux]
    split
    · rename_i h
      split
      · rename_i hf
        refine ih i ((i + j) / 2) (by omega) (by omega) (by omega) hlow ?_
        intro k hk hkn
        exact hmono ((i + j) / 2) k hk hkn hf
      · rename_i hf
        refine ih ((i + j) / 2 + 1) j (by omega) (by omega) hjn ?_ hhigh
        intro k hk
        by_cases hki : k < i
        · exact hlow k hki
        · cases hfk : f k with
          | false => rfl
          | true =>
            have hmid : f ((i + j) / 2) = true :=
              hmono k ((i + j) / 2) (by omega) (by omega) hfk
            simp [hmid] at hf
    · rename_i h
      refine ⟨hlow, fun k hk hkn => hhigh k (by omega) hkn⟩

/-- The `sort.Search` call inside the `mergepgids` loop: the smallest
index of `lead` whose entry exceeds `follow`'s head `f0`. -/
def mergeSearch (lead : List Nat) (f0 : Nat) : Nat :=
  sortSearch lead.length (fun i => decide (f0 < lead.getD i 0))

theorem mergeSearch_le (lead : List Nat) (f0 : Nat) :
    mergeSearch lead f0 ≤ lead.length :=
  (sortSearchAux_bounds _ lead.length 0 lead.length (by omega) (by omega)).2

theorem mergeSearch_eq_zero (lead : List Nat) (f0 : Nat)
    (h0 : 0 < lead.length) (hz : mergeSearch lead f0 = 0) :
    f0 < lead.getD 0 0 := by
  have := sortSearchAux_frontier (fun i => decide (f0 < lead.getD i 0))
    lead.length 0 lead.length (by omega) (by rw [← sortSearch, ← mergeSearch, hz]; exact h0)
  rw [← sortSearch, ← mergeSearch, hz] at this
  exact of_decide_eq_true this

/-- The run-skipping loop of `mergepgids`: `lead` against the nonempty
`follow = f0 :: ftail`.  Each round appends the longest prefix of `lead`
not ahead of `follow`'s head, then swaps the roles; when the search
reaches the end of `lead`, the rest of `follow` is appended verbatim. -/
def mergeLoop (lead : List Nat) (f0 : Nat) (ftail : List Nat) : List Nat :=
  if hl : lead.length = 0 then f0 :: ftail
  else
    if hn : lead.length ≤ mergeSearch lead f0 then
      lead.take (mergeSearch lead f0) ++ f0 :: ftail
    else
      match hd : lead.drop (mergeSearch lead f0) with
      | [] => []
      | g0 :: gtail => lead.take (mergeSearch lead f0) ++ mergeLoop (f0 :: ftail) g0 gtail
termination_by 2 * (lead.length + ftail.length) + (if f0 < lead.headD 0 then 1 else 0)
decreasing_by
  have hlen : gtail.length + 1 = lead.length - mergeSearch lead f0 := by
    have hcg := congrArg List.length hd
    rw [List.length_drop] at hcg
    simp at hcg
    omega
  simp only [List.length_cons]
  by_cases hz : mergeSearch lead f0 = 0
  · have hgt : f0 < lead.getD 0 0 := mergeSearch_eq_zero lead f0 (by omega) hz
    have hg0 : lead.getD 0 0 = g0 := by
      rw [hz, List.drop_zero] at hd
      rw [hd]
      rfl
    have hhead : lead.headD 0 = g0 := by
      rw [hz, List.drop_zero] at hd
      rw [hd]
      rfl
    rw [hg0] at hgt
    have ht : (if f0 < lead.headD 0 then 1 else 0) = 1 := by
      rw [hhead, if_pos hgt]
    have ht' : (if g0 < (f0 :: ftail).headD 0 then 1 else 0) = 0 := by
      have : ¬ g0 < (f0 :: ftail).headD 0 := by
        simp only [List.headD_cons]
        omega
      rw [if_neg this]
    rw [ht, ht']
    omega
  · have ht : (if f0 < lead.headD 0 then 1 else 0) ≤ 1 := by
      split <;> omega
    have ht' : (if g0 < (f0 :: ftail).headD 0 then 1 else 0) ≤ 1 := by
      split <;> omega
    omega

theorem getD_mono_of_sorted (l : List Nat) (hs : l.Sorted (· ≤ ·)) (p q : Nat)
    (hpq : p ≤ q) (hq : q < l.length) : l.getD p 0 ≤ l.getD q 0 := by
  have hp : p < l.length := Nat.lt_of_le_of_lt hpq hq
  rw [List.getD_eq_getElem l 0 hp, List.getD_eq_getElem l 0 hq]
  rcases Nat.eq_or_lt_of_le hpq with h | h
  · subst h
    exact Nat.le_refl _
  · exact List.pairwise_iff_getElem.mp hs p q hp hq h

/-- On a sorted `lead`, the binary search splits `lead` at the first
entry strictly above `f0`. -/
theorem mergeSearch_spec (lead : List Nat) (f0 : Nat) (hs : lead.Sorted (· ≤ ·)) :
    (∀ k, k < mergeSearch lead f0 → lead.getD k 0 ≤ f0) ∧
    (∀ k, mergeSearch lead f0 ≤ k → k < lead.length → f0 < lead.getD k 0) := by
  have hmono : ∀ p q, p ≤ q → q < lead.length →
      (fun i => decide (f0 < lead.getD i 0)) p = true →
      (fun i => decide (f0 < lead.getD i 0)) q = true := by
    intro p q hpq hq hp
    simp only [decide_eq_true_eq] at hp ⊢
    have hgd := getD_mono_of_sorted lead hs p q hpq hq
    omega
  have hspec := sortSearchAux_spec _ lead.length hmono lead.length 0 lead.length
    (by omega) (by omega) (Nat.le_refl _)
    (fun k hk => absurd hk (Nat.not_lt_zero k))
    (fun k hk hkn => absurd hkn (Nat.not_lt.mpr hk))
  rw [← sortSearch, ← mergeSearch] at hspec
  constructor
  · intro k hk
    have hfk := hspec.1 k hk
    simp only [decide_eq_false_iff_not] at hfk
    omega
  · intro k hk hkn
    exact of_decide_eq_true (hspec.2 k hk hkn)

theorem mem_take_le (lead : List Nat) (f0 : Nat) (hs : lead.Sorted (· ≤ ·))
    (x : Nat) (hx : x ∈ lead.take (mergeSearch lead f0)) : x ≤ f0 := by
  rw [List.mem_iff_getElem] at hx
  obtain ⟨i, hi, hx⟩ := hx
  rw [List.length_take] at hi
  have hilt : i < mergeSearch lead f0 := Nat.lt_of_lt_of_le hi (Nat.min_le_left _ _)
  have hill : i < lead.length := Nat.lt_of_lt_of_le hi (Nat.min_le_right _ _)
  rw [List.getElem_take] at hx
  have hb := (mergeSearch_spec lead f0 hs).1 i hilt
  rw [List.getD_eq_getElem lead 0 hill, hx] at hb
  exact hb

theorem mem_drop_gt (lead : List Nat) (f0 : Nat) (hs : lead.Sorted (· ≤ ·))
    (x : Nat) (hx : x ∈ lead.drop (mergeSearch lead f0)) : f0 < x := by
  rw [List.mem_iff_getElem] at hx
  obtain ⟨i, hi, hx⟩ := hx
  rw [List.length_drop] at hi
  rw [List.getElem_drop] at hx
  have hb := (mergeSearch_spec lead f0 hs).2 (mergeSearch lead f0 + i)
    (Nat.le_add_right _ _) (by omega)
  rw [List.getD_eq_getElem lead 0 (by omega), hx] at hb
  exact hb

/-- The loop permutes its input: its output is `lead ++ follow` up to
reordering, unconditionally. -/
theorem mergeLoop_perm (lead : List Nat) (f0 : Nat) (ftail : List Nat) :
    List.Perm (mergeLoop lead f0 ftail) (lead ++ f0 :: ftail) := by
  induction lead, f0, ftail using mergeLoop.induct with
  | case1 lead f0 ftail hl =>
    rw [mergeLoop, dif_pos hl, List.length_eq_zero.mp hl]
    exact List.Perm.refl _
  | case2 lead f0 ftail hl hn =>
    rw [mergeLoop, dif_neg hl, dif_pos hn, List.take_of_length_le hn]
  | case3 lead f0 ftail hl hn hd =>
    exfalso
    have hlen := congrArg List.length hd
    rw [List.length_drop] at hlen
    simp at hlen
    omega
  | case4 lead f0 ftail hl hn g0 gtail hd ih =>
    rw [mergeLoop, dif_neg hl, dif_neg hn]
    split
    · rename_i heq
      rw [hd] at heq
      exact absurd heq (List.cons_ne_nil _ _)
    · rename_i g0' gtail' heq
      rw [hd] at heq
      injection heq with h1 h2
      subst h1
      subst h2
      refine (List.Perm.append_left _ ih).trans ?_
      refine (List.Perm.append_left _ List.perm_append_comm).trans ?_
      rw [← hd, ← List.append_assoc, List.take_append_drop]

/-- With both runs sorted, the loop's output is sorted. -/
theorem mergeLoop_sorted (lead : List Nat) (f0 : Nat) (ftail : List Nat) :
    lead.Sorted (· ≤ ·) → (f0 :: ftail).Sorted (· ≤ ·) →
    (mergeLoop lead f0 ftail).Sorted (· ≤ ·) := by
  induction lead, f0, ftail using mergeLoop.induct with
  | case1 lead f0 ftail hl =>
    intro _ hf
    rw [mergeLoop, dif_pos hl]
    exact hf
  | case2 lead f0 ftail hl hn =>
    intro hs hf
    rw [mergeLoop, dif_neg hl, dif_pos hn, List.take_of_length_le hn]
    refine List.pairwise_append.mpr ⟨hs, hf, ?_⟩
    intro x hx y hy
    have hx' : x ≤ f0 := by
      rw [← List.take_of_length_le hn] at hx
      exact mem_take_le lead f0 hs x hx
    have hy' : f0 ≤ y := by
      rcases List.mem_cons.mp hy with h | h
      · subst h
        exact Nat.le_refl _
      · exact List.rel_of_sorted_cons hf y h
    exact Nat.le_trans hx' hy'
  | case3 lead f0 ftail hl hn hd =>
    intro _ _
    exfalso
    have hlen := congrArg List.length hd
    rw [List.length_drop] at hlen
    simp at hlen
    omega
  | case4 lead f0 ftail hl hn g0 gtail hd ih =>
    intro hs hf
    rw [mergeLoop, dif_neg hl, dif_neg hn]
    split
    · rename_i heq
      rw [hd] at heq
      exact absurd heq (List.cons_ne_nil _ _)
    · rename_i g0' gtail' heq
      rw [hd] at heq
      injection heq with h1 h2
      subst h1
      subst h2
      have hdrop : (g0 :: gtail).Sorted (· ≤ ·) := by
        rw [← hd]
        exact hs.sublist (List.drop_sublist _ _)
      refine List.pairwise_append.mpr ⟨hs.sublist (List.take_sublist _ _), ih hf hdrop, ?_⟩
      intro x hx y hy
      have hx' : x ≤ f0 := mem_take_le lead f0 hs x hx
      have hy' : f0 ≤ y := by
        have hymem := (mergeLoop_perm (f0 :: ftail) g0 gtail).mem_iff.mp hy
        rcases List.mem_append.mp hymem with hyl | hyr
        · rcases List.mem_cons.mp hyl with h | h
          · subst h
            exact Nat.le_refl _
          · exact List.rel_of_sorted_cons hf y h
        · rw [← hd] at hyr
          exact Nat.le_of_lt (mem_drop_gt lead f0 hs y hyr)
      exact Nat.le_trans hx' hy'

/-- Go's built-in `copy(dst, src)`: the first `min dst.length src.length`
entries of `dst` are overwritten with those of `src`. -/
def goCopy (dst src : List Nat) : List Nat :=
  src.take (min dst.length src.length) ++ dst.drop (min dst.length src.length)

/-- `mergepgids` from `page.go`: copies the sorted union of `a` and `b`
into `dst`.  The `panic` on a too-small destination is modelled by
`none`; otherwise the result is the content of `dst` after the call. -/
def mergepgids (dst a b : List Nat) : Option (List Nat) :=
  if dst.length < a.length + b.length then none
  else
    match a, b with
    | [], _ => some (goCopy dst b)
    | _, [] => some (goCopy dst a)
    | a0 :: atl, b0 :: btl =>
      let merged := if b0 < a0 then mergeLoop (b0 :: btl) a0 atl else mergeLoop (a0 :: atl) b0 btl
      some (merged ++ dst.drop merged.length)

/-- `pgids.merge` from `page.go`: the sorted union of `a` and `b`,
through a freshly allocated destination of length `len(a)+len(b)`. -/
def merge (a b : List Nat) : List Nat :=
  if a.length = 0 then b
  else if b.length = 0 then a
  else (mergepgids (List.replicate (a.length + b.length) 0) a b).getD []

theorem merge_nil_left (b : List Nat) : merge [] b = b := by
  simp [merge]

theorem merge_nil_right (a : List Nat) : merge a [] = a := by
  by_cases h : a.length = 0
  · rw [merge, if_pos h]
    exact (List.length_eq_zero.mp h).symm
  · simp [merge, h]

/-- On two nonempty inputs, `merge` runs the loop with the
lower-starting list leading, and the freshly allocated destination is
exactly filled. -/
theorem merge_eq_loop (a0 : Nat) (atl : List Nat) (b0 : Nat) (btl : List Nat) :
    merge (a0 :: atl) (b0 :: btl) =
      if b0 < a0 then mergeLoop (b0 :: btl) a0 atl else mergeLoop (a0 :: atl) b0 btl := by
  have hml : (if b0 < a0 then mergeLoop (b0 :: btl) a0 atl
      else mergeLoop (a0 :: atl) b0 btl).length
      = (a0 :: atl).length + (b0 :: btl).length := by
    split
    · rw [(mergeLoop_perm _ _ _).length_eq]
      simp only [List.length_append, List.length_cons]
      omega
    · rw [(mergeLoop_perm _ _ _).length_eq]
      simp only [List.length_append]
  rw [merge, if_neg (by simp), if_neg (by simp), mergepgids.eq_def, if_neg (by simp)]
  dsimp only
  rw [Option.getD_some]
  rw [List.drop_eq_nil_of_le (by rw [List.length_replicate, hml]), List.append_nil]

/-- C1: for every pair of sorted (ascending) sequences `A` and `B` of
page ids, `merge(A, B)` is sorted and its multiset of elements is the
multiset union of `A` and `B` (duplicates preserved); in particular
`merge(A, []) = A` and `merge([], B) = B`. -/
theorem merge_sorted_union (a b : List Nat)
    (ha : a.Sorted (· ≤ ·)) (hb : b.Sorted (· ≤ ·)) :
    (merge a b).Sorted (· ≤ ·) ∧ List.Perm (merge a b) (a ++ b) ∧
    merge a [] = a ∧ merge [] b = b := by
  have hmain : (merge a b).Sorted (· ≤ ·) ∧ List.Perm (merge a b) (a ++ b) := by
    cases a with
    | nil =>
      rw [merge_nil_left]
      exact ⟨hb, List.Perm.refl _⟩
    | cons a0 atl =>
      cases b with
      | nil =>
        rw [merge_nil_right]
        refine ⟨ha, ?_⟩
        rw [List.append_nil]
      | cons b0 btl =>
        rw [merge_eq_loop]
        split
        · exact ⟨mergeLoop_sorted _ _ _ hb ha,
            (mergeLoop_perm _ _ _).trans List.perm_append_comm⟩
        · exact ⟨mergeLoop_sorted _ _ _ ha hb, mergeLoop_perm _ _ _⟩
  exact ⟨hmain.1, hmain.2, merge_nil_right a, merge_nil_left b⟩

theorem merge_sorted_union_witness :
    ([1, 3] : List Nat).Sorted (· ≤ ·) ∧
    ((merge [1, 3] [2, 3]).Sorted (· ≤ ·) ∧
      List.Perm (merge [1, 3] [2, 3]) ([1, 3] ++ [2, 3]) ∧
      merge [1, 3] [] = [1, 3] ∧ merge [] [2, 3] = [2, 3]) :=
  ⟨by decide, merge_sorted_union [1, 3] [2, 3] (by decide) (by decide)⟩

/-- C4: `mergepgids` fails fast (panics, modelled by `none`) precisely
when the destination is smaller than `len(a) + len(b)`; any destination
at least that large passes the precondition check. -/
theorem mergepgids_guard (dst a b : List Nat) :
    (dst.length < a.length + b.length → mergepgids dst a b = none) ∧
    (a.length + b.length ≤ dst.length → (mergepgids dst a b).isSome = true) := by
  constructor
  · intro h
    rw [mergepgids.eq_def, if_pos h]
  · intro h
    rw [mergepgids.eq_def, if_neg (by omega)]
    cases a with
    | nil =>
      cases b with
      | nil => rfl
      | cons b0 btl => rfl
    | cons a0 atl =>
      cases b with
      | nil => rfl
      | cons b0 btl => rfl

theorem mergepgids_guard_witness :
    ([0] : List Nat).length < ([1] : List Nat).length + ([2] : List Nat).length ∧
    mergepgids [0] [1] [2] = none ∧
    (mergepgids [0, 0] [1] [2]).isSome = true :=
  ⟨by decide, (mergepgids_guard [0] [1] [2]).1 (by decide),
    (mergepgids_guard [0, 0] [1] [2]).2 (by decide)⟩

/-- C3: a leaf element's `key()` is exactly the `ksize` bytes starting
at the element's own address plus `pos`, and `value()` is exactly the
`vsize` bytes immediately following the key. -/
theorem leaf_key_value_layout (n : leafPageElement) (mem : Nat → Nat) (addr : Nat) :
    n.key mem addr = (List.range n.ksize).map (fun k => mem (addr + n.pos + k)) ∧
    n.value mem addr = (List.range n.vsize).map (fun k => mem (addr + n.pos + n.ksize + k)) := by
  constructor
  · rw [leafPageElement.key, unsafeByteSlice, Nat.add_sub_cancel_left]
    simp only [Nat.add_zero, Nat.add_assoc]
  · rw [leafPageElement.value, unsafeByteSlice, Nat.add_sub_cancel_left]
    simp only [Nat.add_zero, Nat.add_assoc]

/-- C5: on a page whose `count` is zero, both element-enumeration
accessors return the empty sequence for every possible memory content
(so no byte beyond the header is read). -/
theorem pageElements_count_zero (p : page) (la : Nat → leafPageElement)
    (ba : Nat → branchPageElement) (h : p.count = 0) :
    p.leafPageElements la = [] ∧ p.branchPageElements ba = [] := by
  refine ⟨?_, ?_⟩
  · rw [page.leafPageElements, if_pos h]
  · rw [page.branchPageElements, if_pos h]

theorem pageElements_count_zero_witness :
    (page.mk 7 2 0 0).count = 0 ∧
    (page.mk 7 2 0 0).leafPageElements (fun _ => leafPageElement.mk 0 0 0 0) = [] ∧
    (page.mk 7 2 0 0).branchPageElements (fun _ => branchPageElement.mk 0 0 0) = [] :=
  ⟨rfl,
    (pageElements_count_zero (page.mk 7 2 0 0) (fun _ => leafPageElement.mk 0 0 0 0)
      (fun _ => branchPageElement.mk 0 0 0) rfl).1,
    (pageElements_count_zero (page.mk 7 2 0 0) (fun _ => leafPageElement.mk 0 0 0 0)
      (fun _ => branchPageElement.mk 0 0 0) rfl).2⟩

/-- C8 fails as stated: a flags pattern with several type bits set
(here `0x03` = branch|leaf) does not yield an "unknown" string carrying
the raw flags value; `typ` returns `"branch"` for it, indistinguishable
from a genuine branch page (flags `0x01`). -/
theorem typ_multibit_counterexample :
    page.typ (page.mk 0 3 0 0) = "branch" ∧ page.typ (page.mk 0 1 0 0) = "branch" := by
  exact ⟨rfl, rfl⟩

/-- C8 (amended): `typ` returns the name of the first type bit set, in
the order branch, leaf, meta, freelist; only when none of the four type
bits is set does it return the distinguishable unknown string carrying
the raw flags value in hex. -/
theorem typ_spec (p : page) :
    (p.flags &&& branchPageFlag ≠ 0 → p.typ = "branch") ∧
    (p.flags &&& branchPageFlag = 0 → p.flags &&& leafPageFlag ≠ 0 → p.typ = "leaf") ∧
    (p.flags &&& branchPageFlag = 0 → p.flags &&& leafPageFlag = 0 →
      p.flags &&& metaPageFlag ≠ 0 → p.typ = "meta") ∧
    (p.flags &&& branchPageFlag = 0 → p.flags &&& leafPageFlag = 0 →
      p.flags &&& metaPageFlag = 0 → p.flags &&& freelistPageFlag ≠ 0 →
      p.typ = "freelist") ∧
    (p.flags &&& branchPageFlag = 0 → p.flags &&& leafPageFlag = 0 →
      p.flags &&& metaPageFlag = 0 → p.flags &&& freelistPageFlag = 0 →
      p.typ = "unknown<" ++ sprintf02x p.flags ++ ">") := by
  refine ⟨?_, ?_, ?_, ?_, ?_⟩
  · intro h1
    rw [page.typ, if_pos h1]
  · intro h1 h2
    rw [page.typ, if_neg (by simp [h1]), if_pos h2]
  · intro h1 h2 h3
    rw [page.typ, if_neg (by simp [h1]), if_neg (by simp [h2]), if_pos h3]
  · intro h1 h2 h3 h4
    rw [page.typ, if_neg (by simp [h1]), if_neg (by simp [h2]), if_neg (by simp [h3]),
      if_pos h4]
  · intro h1 h2 h3 h4
    rw [page.typ, if_neg (by simp [h1]), if_neg (by simp [h2]), if_neg (by simp [h3]),
      if_neg (by simp [h4])]

theorem typ_spec_witness :
    (page.mk 0 1 0 0).flags &&& branchPageFlag ≠ 0 ∧
    page.typ (page.mk 0 1 0 0) = "branch" ∧
    page.typ (page.mk 0 8 0 0) = "unknown<" ++ sprintf02x 8 ++ ">" :=
  ⟨by decide, (typ_spec (page.mk 0 1 0 0)).1 (by decide),
    (typ_spec (page.mk 0 8 0 0)).2.2.2.2 (by decide) (by decide) (by decide) (by decide)⟩

/-- C6: `munmap` is a successful no-op when nothing is mapped; after a
successful unmap the buffer, pointer and size report as absent, so a
second `munmap` is again a successful no-op. -/
theorem munmap_noop_and_clears (db : DB) (os os2 : Option Int) :
    (db.dataref = none → munmap db os = (db, none)) ∧
    (db.dataref ≠ none →
      munmap db none = (DB.mk none none 0, none) ∧
      munmap (munmap db none).1 os2 = ((munmap db none).1, none)) := by
  constructor
  · intro h
    rw [munmap, if_pos h]
  · intro h
    have h1 : munmap db none = (DB.mk none none 0, none) := by
      rw [munmap, if_neg h]
    refine ⟨h1, ?_⟩
    rw [h1, munmap, if_pos rfl]

theorem munmap_noop_and_clears_witness :
    (DB.mk (some [1]) (some ()) 1).dataref ≠ none ∧
    munmap (DB.mk (some [1]) (some ()) 1) none = (DB.mk none none 0, none) ∧
    munmap (munmap (DB.mk (some [1]) (some ()) 1) none).1 (some 9)
      = ((munmap (DB.mk (some [1]) (some ()) 1) none).1, none) ∧
    munmap (DB.mk none none 0) (some 9) = (DB.mk none none 0, none) :=
  ⟨by decide,
    ((munmap_noop_and_clears (DB.mk (some [1]) (some ()) 1) (some 9) (some 9)).2 (by decide)).1,
    ((munmap_noop_and_clears (DB.mk (some [1]) (some ()) 1) (some 9) (some 9)).2 (by decide)).2,
    (munmap_noop_and_clears (DB.mk none none 0) (some 9) none).1 rfl⟩

/-- C10: when a mapping exists, `munmap` clears the stored mapping state
even when the OS unmap fails: the OS error is returned but the handle is
left unmapped, so a following `munmap` is a successful no-op. -/
theorem munmap_clears_even_on_error (db : DB) (e : Int) (os2 : Option Int)
    (h : db.dataref ≠ none) :
    munmap db (some e) = (DB.mk none none 0, some e) ∧
    munmap (munmap db (some e)).1 os2 = ((munmap db (some e)).1, none) := by
  have h1 : munmap db (some e) = (DB.mk none none 0, some e) := by
    rw [munmap, if_neg h]
  refine ⟨h1, ?_⟩
  rw [h1, munmap, if_pos rfl]

theorem munmap_clears_even_on_error_witness :
    (DB.mk (some [5]) (some ()) 1).dataref ≠ none ∧
    munmap (DB.mk (some [5]) (some ()) 1) (some 22) = (DB.mk none none 0, some 22) ∧
    munmap (munmap (DB.mk (some [5]) (some ()) 1) (some 22)).1 none
      = ((munmap (DB.mk (some [5]) (some ()) 1) (some 22)).1, none) :=
  ⟨by decide,
    (munmap_clears_even_on_error (DB.mk (some [5]) (some ()) 1) 22 none (by decide)).1,
    (munmap_clears_even_on_error (DB.mk (some [5]) (some ()) 1) 22 none (by decide)).2⟩

/-- C7: when the OS mapping succeeds, an `ENOSYS` failure of the
`MADV_RANDOM` advise is ignored and `mmap` succeeds (storing the buffer
and size), while any other advise failure makes `mmap` return an
error. -/
theorem mmap_advise_tolerance (db : DB) (sz : Nat) (b : List Nat) (adv : Int) :
    mmap db sz (.ok b) (some ENOSYS) = .ok (DB.mk (some b) (some ()) sz) ∧
    mmap db sz (.ok b) none = .ok (DB.mk (some b) (some ()) sz) ∧
    (adv ≠ ENOSYS → mmap db sz (.ok b) (some adv) = .error (.madviseFailed adv)) := by
  refine ⟨?_, ?_, ?_⟩
  · rw [mmap, if_neg (by simp)]
  · rw [mmap]
  · intro h
    rw [mmap, if_pos h]

theorem mmap_advise_tolerance_witness :
    ((40 : Int) ≠ ENOSYS) ∧
    mmap (DB.mk none none 0) 4 (.ok [7]) (some ENOSYS) = .ok (DB.mk (some [7]) (some ()) 4) ∧
    mmap (DB.mk none none 0) 4 (.ok [7]) (some 40) = .error (.madviseFailed 40) :=
  ⟨by decide, (mmap_advise_tolerance (DB.mk none none 0) 4 [7] 40).1,
    (mmap_advise_tolerance (DB.mk none none 0) 4 [7] 40).2.2 (by decide)⟩

/-- One blocked round of the `flock` loop: with the attempt reporting
`EWOULDBLOCK`, the loop checks the deadline and otherwise sleeps and
retries. -/
theorem flock_blocked_step (attempt : Nat → Option Int) (elapsed : Nat → Int)
    (timeout retry : Int) (k fuel : Nat)
    (hatt : attempt k = some EWOULDBLOCK) :
    flock attempt elapsed timeout retry k (fuel + 1) =
      if timeout ≠ 0 ∧ timeout - retry < elapsed k then some .timedOut
      else flock attempt elapsed timeout retry (k + 1) fuel := by
  rw [flock, hatt]
  dsimp only
  rw [if_neg (show ¬ (EWOULDBLOCK ≠ EWOULDBLOCK) from fun hc => hc rfl)]

theorem flock_timeout_aux (attempt : Nat → Option Int) (elapsed : Nat → Int)
    (timeout retry : Int)
    (htimeout : timeout ≠ 0) (hblock : ∀ j, attempt j = some EWOULDBLOCK) :
    ∀ k s, (∀ j, s ≤ j → j < s + k → elapsed j ≤ timeout - retry) →
      timeout - retry < elapsed (s + k) →
      flock attempt elapsed timeout retry s (k + 1) = some .timedOut := by
  intro k
  induction k with
  | zero =>
    intro s hbefore hk
    rw [flock_blocked_step attempt elapsed timeout retry s 0 (hblock s)]
    rw [if_pos ⟨htimeout, by simpa using hk⟩]
  | succ k ih =>
    intro s hbefore hk
    rw [flock_blocked_step attempt elapsed timeout retry s (k + 1) (hblock s)]
    rw [if_neg (show ¬ (timeout ≠ 0 ∧ timeout - retry < elapsed s) from by
      intro hcon
      exact absurd hcon.2 (not_lt.mpr (hbefore s (Nat.le_refl s) (by omega))))]
    have harg : s + 1 + k = s + (k + 1) := by omega
    exact ih (s + 1) (fun j hj1 hj2 => hbefore j (by omega) (by omega)) (by rw [harg]; exact hk)

/-- C2: with a non-zero timeout and every attempt failing with
`EWOULDBLOCK`, the elapsed time is checked before each sleep, and
`flock` returns the timeout error at the first check where the
remaining budget is below one retry interval (after exactly `k`
sleeps), instead of sleeping past the deadline. -/
theorem flock_timeout_at_deadline (attempt : Nat → Option Int) (elapsed : Nat → Int)
    (timeout retry : Int) (k : Nat)
    (htimeout : timeout ≠ 0)
    (hblock : ∀ j, attempt j = some EWOULDBLOCK)
    (hbefore : ∀ j, j < k → elapsed j ≤ timeout - retry)
    (hk : timeout - retry < elapsed k) :
    flock attempt elapsed timeout retry 0 (k + 1) = some flockResult.timedOut :=
  flock_timeout_aux attempt elapsed timeout retry htimeout hblock k 0
    (fun j _ hj2 => hbefore j (by omega)) (by simpa using hk)

theorem flock_timeout_at_deadline_witness :
    (10 : Int) ≠ 0 ∧
    flock (fun _ => some EWOULDBLOCK) (fun j => 4 * (j : Int)) 10 3 0 3
      = some flockResult.timedOut :=
  ⟨by decide,
    flock_timeout_at_deadline (fun _ => some EWOULDBLOCK) (fun j => 4 * (j : Int)) 10 3 2
      (by decide) (fun _ => rfl) (by decide) (by decide)⟩

/-- C9: any lock-attempt error other than `EWOULDBLOCK` is returned to
the caller immediately, with no further retry or sleep (the result does
not depend on the remaining fuel, the clock, or the timeout). -/
theorem flock_error_immediate (attempt : Nat → Option Int) (elapsed : Nat → Int)
    (timeout retry : Int) (k fuel : Nat) (e : Int)
    (hatt : attempt k = some e) (he : e ≠ EWOULDBLOCK) :
    flock attempt elapsed timeout retry k (fuel + 1) = some (flockResult.err e) := by
  rw [flock, hatt]
  dsimp only
  rw [if_pos he]

theorem flock_error_immediate_witness :
    (13 : Int) ≠ EWOULDBLOCK ∧
    flock (fun _ => some 13) (fun _ => 0) 10 3 0 1 = some (flockResult.err 13) :=
  ⟨by decide,
    flock_error_immediate (fun _ => some 13) (fun _ => 0) 10 3 0 0 13 rfl (by decide)⟩

end BoltRead
